import Mathlib

/-!
Verification of the Message Coalescing Coordinator of the telegram-gpt
bot, embedded shallowly from:
  * `src/services/message_buffer.py`  (class `MessageBuffer`)
  * `src/handlers/message_handlers.py` (`handle_text_message`)

The per-key state of the Python `MessageBuffer` is
`{"processing": bool, "buffer": [str], "current_task": Task | None}`,
held in the dict `user_states` keyed by `chat_id`.  Each buffer method
runs under the per-chat `asyncio.Lock`, so every method body is one
atomic state transition; concurrency is modelled by interleaving those
atomic transitions (and by arrival slots at the handler's genuine
`await` suspension points).  Python `KeyError` on a missing chat id is
modelled by `Option`.
-/

namespace MB

/-- Per-chat entry of `MessageBuffer.user_states`
(`{"processing": ..., "buffer": ..., "current_task": ...}`).
The `asyncio.Task` object is modelled by an opaque numeric id. -/
structure UserState where
  processing : Bool
  buffer : List String
  current_task : Option Nat
deriving DecidableEq, Repr

abbrev ChatId := Int

/-- The `user_states` dict: a partial map from chat id to per-chat state. -/
abbrev BufMap := ChatId → Option UserState

/-- The entry created on first use:
`{"processing": False, "buffer": [], "current_task": None}`. -/
def initState : UserState :=
  { processing := false, buffer := [], current_task := none }

/-- Point update of the `user_states` dict. -/
def setState (mb : BufMap) (chat : ChatId) (st : UserState) : BufMap :=
  fun c => if c = chat then some st else mb c

/-- The `processing` flag of a chat (`False` when the key is absent,
matching the entry that `add_message` would create). -/
def processingOf (mb : BufMap) (chat : ChatId) : Bool :=
  ((mb chat).getD initState).processing

/-- The pending fragment list of a chat (`[]` when the key is absent). -/
def bufferOf (mb : BufMap) (chat : ChatId) : List String :=
  ((mb chat).getD initState).buffer

/-- `MessageBuffer.add_message`: create the entry if absent, append the
text to the buffer, then return `True` (and set `processing`) iff
`processing` was `False`. -/
def add_message (mb : BufMap) (chat : ChatId) (text : String) : BufMap × Bool :=
  let st0 := (mb chat).getD initState
  let st1 := { st0 with buffer := st0.buffer ++ [text] }
  if st1.processing then
    (setState mb chat st1, false)
  else
    (setState mb chat { st1 with processing := true }, true)

/-- `MessageBuffer.get_buffered_messages`: return a copy of the buffer
and clear it (`none` models the `KeyError` on a missing chat). -/
def get_buffered_messages (mb : BufMap) (chat : ChatId) :
    Option (BufMap × List String) :=
  (mb chat).map fun st => (setState mb chat { st with buffer := [] }, st.buffer)

/-- `MessageBuffer.set_current_task`: record the processing task. -/
def set_current_task (mb : BufMap) (chat : ChatId) (task : Nat) :
    Option BufMap :=
  (mb chat).map fun st => setState mb chat { st with current_task := some task }

/-- `MessageBuffer.has_buffered_messages`: whether the buffer is non-empty. -/
def has_buffered_messages (mb : BufMap) (chat : ChatId) : Option Bool :=
  (mb chat).map fun st => decide (0 < st.buffer.length)

/-- `MessageBuffer.finish_processing`: if the buffer is non-empty return
`True` leaving the state untouched; otherwise reset `processing` and
`current_task` and return `False`. -/
def finish_processing (mb : BufMap) (chat : ChatId) : Option (BufMap × Bool) :=
  (mb chat).map fun st =>
    if 0 < st.buffer.length then (mb, true)
    else (setState mb chat { st with processing := false, current_task := none }, false)

/-- Modelled from the spec: `MessageBuffer.peek_buffered_messages` is
called by `handle_text_message` and by the repo's own
`tests/test_message_buffer.py` but is missing from the `MessageBuffer`
class; spec §4.1 step 1 says "Take a `Snapshot` of `pending` (copy, do
not clear)", so it returns the buffer contents without modifying the
state. -/
def peek_buffered_messages (mb : BufMap) (chat : ChatId) : Option (List String) :=
  (mb chat).map (·.buffer)

/-- Modelled from the spec: `MessageBuffer.clear_buffer` is called by
`handle_text_message` and by the repo's tests but is missing from the
class; spec §4.1 steps 4-5 say settlement and generation failure
"clear `pending` entirely", so it empties the buffer of the chat. -/
def clear_buffer (mb : BufMap) (chat : ChatId) : Option BufMap :=
  (mb chat).map fun st => setState mb chat { st with buffer := [] }

/-- The attribute names defined by `class MessageBuffer` in
`src/services/message_buffer.py` (its entire method table, in source
order). -/
def messageBufferClassDefs : List String :=
  ["__init__", "get_lock", "add_message", "get_buffered_messages",
   "set_current_task", "has_buffered_messages", "finish_processing"]

/-- Python exceptions that the embedded code can raise. -/
inductive PyErr where
  | attributeError (name : String)
  | keyError
deriving DecidableEq, Repr

/-- Attribute lookup on a `MessageBuffer` instance: method access
succeeds exactly when the class defines the name. -/
def getattrBuffer (name : String) : Except PyErr Unit :=
  if messageBufferClassDefs.contains name then Except.ok ()
  else Except.error (PyErr.attributeError name)

/-!
## Session-loop model (`handle_text_message`, lines 58-175)

The handler's externally visible actions are recorded as events.  A
`settle` event is the call to `save_to_context_and_format` (spec:
`Settle`); it records the combined text handed over, the LLM output,
the buffer contents observed at the post-completion confirmation
re-read, and — as a ghost field — the full submission log at that same
moment.  `errMsg` is the single apology message of the generation-error
path; `typingStart` / `typingCancel` are `asyncio.create_task
(keep_typing ...)` and `typing_task.cancel()`.
-/

/-- Externally visible events of the handler. -/
inductive Ev where
  | settle (combined output : String) (bufAtConf logAtConf : List String)
  | errMsg
  | typingStart
  | typingCancel
deriving DecidableEq, Repr

/-- System state threaded through the loop: the buffer map, a ghost log
of every fragment ever submitted for the modelled chat (in arrival
order), and the event trace. -/
structure Sys where
  mb : BufMap
  log : List String
  events : List Ev

/-- One inbound message event: `message_buffer.add_message` plus the
ghost log append. -/
def submit (sys : Sys) (chat : ChatId) (text : String) : Sys × Bool :=
  let r := add_message sys.mb chat text
  ({ sys with mb := r.1, log := sys.log ++ [text] }, r.2)

/-- A batch of inbound messages delivered at one suspension point. -/
def submitAll (sys : Sys) (chat : ChatId) (ts : List String) : Sys :=
  ts.foldl (fun s t => (submit s chat t).1) sys

/-- A sequence of later `add_message` calls, collecting the returned
booleans (used to state what happens to a key after the handler gets
stuck). -/
def addAll (mb : BufMap) (chat : ChatId) : List String → BufMap × List Bool
  | [] => (mb, [])
  | t :: ts =>
    let r := add_message mb chat t
    let tl := addAll r.1 chat ts
    (tl.1, r.2 :: tl.2)

/-- Environment of one generation attempt (one iteration of the
handler's `while True` loop): which fragments arrive at each genuine
suspension point, and how the external collaborators behave.
`pollArrivals` gives the fragments arriving during each
`asyncio.sleep(0.1)` of the poll loop; when the list is exhausted the
task is observed done.  `raceArrivals` arrive between the poll loop's
exit and the confirmation re-read (the completion race the source
re-checks for).  `llm` is the task's result (`none` = the LLM returned
no usable output).  `deliverForbidden` makes `message.answer` raise
`TelegramForbiddenError`.  `settleArrivals` arrive during the
`save_to_context_and_format` / delivery awaits, before `clear_buffer`;
`errorArrivals` arrive during the error-path `message.answer`. -/
structure AttemptEnv where
  pollArrivals : List (List String)
  raceArrivals : List String
  llm : Option String
  deliverForbidden : Bool
  settleArrivals : List String
  errorArrivals : List String
deriving Repr

/-- How one attempt ends, seen from the `while True` loop. -/
inductive Outcome where
  | continueLoop
  | stopLoop
  | retErr
  | retForbidden
deriving DecidableEq, Repr

/-- How the whole handler invocation ends. -/
inductive LoopExit where
  | finished
  | errorReturn
  | forbidden
  | outOfFuel
deriving DecidableEq, Repr

/-- The interruption-detection poll (lines 83-98): while the task is
not done, sleep (fragments may arrive), re-read the buffer and break
interrupted as soon as its length exceeds the snapshot length. -/
def pollLoop (chat : ChatId) (snapLen : Nat) :
    Sys → List (List String) → Option (Sys × Bool)
  | sys, [] => some (sys, false)
  | sys, arr :: rest =>
    let sys1 := submitAll sys chat arr
    match peek_buffered_messages sys1.mb chat with
    | none => none
    | some cur =>
      if snapLen < cur.length then some (sys1, true)
      else pollLoop chat snapLen sys1 rest

/-- Lines 166-170: `finish_processing`, then continue the loop iff it
reported more messages. -/
def finishStep (chat : ChatId) (sys : Sys) : Option (Sys × Outcome) :=
  match finish_processing sys.mb chat with
  | none => none
  | some (mb1, hasMore) =>
    some ({ sys with mb := mb1 },
          if hasMore then Outcome.continueLoop else Outcome.stopLoop)

/-- One iteration of the handler's `while True` loop (lines 71-170),
with `peek_buffered_messages` / `clear_buffer` modelled from the spec. -/
def runAttempt (chat : ChatId) (sys : Sys) (env : AttemptEnv) :
    Option (Sys × Outcome) :=
  match peek_buffered_messages sys.mb chat with
  | none => none
  | some messages =>
    let combined := String.intercalate "\n" messages
    match set_current_task sys.mb chat 0 with
    | none => none
    | some mb1 =>
      match pollLoop chat messages.length { sys with mb := mb1 } env.pollArrivals with
      | none => none
      | some (sys2, interrupted) =>
        if interrupted then
          -- lines 162-164: do not clear, fall through to finish_processing
          finishStep chat sys2
        else
          let sys3 := submitAll sys2 chat env.raceArrivals
          match peek_buffered_messages sys3.mb chat with
          | none => none
          | some current =>
            if current.length = messages.length then
              match env.llm with
              | none =>
                -- lines 108-116: apology message, clear, finish, return
                let sys4 := { sys3 with events := sys3.events ++ [Ev.errMsg] }
                let sys5 := submitAll sys4 chat env.errorArrivals
                match clear_buffer sys5.mb chat with
                | none => none
                | some mb2 =>
                  match finish_processing mb2 chat with
                  | none => none
                  | some (mb3, _) => some ({ sys5 with mb := mb3 }, Outcome.retErr)
              | some output =>
                -- lines 118-121: save_to_context_and_format (the Settle call)
                let sys4 := { sys3 with
                  events := sys3.events ++ [Ev.settle combined output current sys3.log] }
                if env.deliverForbidden then
                  -- lines 132-136: return without clearing or finishing
                  some (sys4, Outcome.retForbidden)
                else
                  let sys5 := submitAll sys4 chat env.settleArrivals
                  -- line 153: clear only now, after successful processing
                  match clear_buffer sys5.mb chat with
                  | none => none
                  | some mb2 => finishStep chat { sys5 with mb := mb2 }
            else
              -- lines 154-161: stale-by-race, discard, do not clear
              finishStep chat sys3

/-- The handler's `while True` loop, fuelled by the list of attempt
environments. -/
def runLoop (chat : ChatId) : Sys → List AttemptEnv → Option (Sys × LoopExit)
  | sys, [] => some (sys, LoopExit.outOfFuel)
  | sys, env :: rest =>
    match runAttempt chat sys env with
    | none => none
    | some (sys1, Outcome.continueLoop) => runLoop chat sys1 rest
    | some (sys1, Outcome.stopLoop) => some (sys1, LoopExit.finished)
    | some (sys1, Outcome.retErr) => some (sys1, LoopExit.errorReturn)
    | some (sys1, Outcome.retForbidden) => some (sys1, LoopExit.forbidden)

/-- `handle_text_message` from the `add_message` call on (lines 58-175):
if buffered, return at once; otherwise start the typing indicator, run
the session loop, and — `finally` — cancel the indicator on every exit. -/
def handle_text_message (chat : ChatId) (sys : Sys) (text : String)
    (envs : List AttemptEnv) : Sys × Option (Except PyErr LoopExit) :=
  let sub := submit sys chat text
  if sub.2 = false then
    (sub.1, none)
  else
    let sys2 := { sub.1 with events := sub.1.events ++ [Ev.typingStart] }
    let run :=
      match runLoop chat sys2 envs with
      | none => (sys2, Except.error PyErr.keyError)
      | some (s, ex) => (s, Except.ok ex)
    ({ run.1 with events := run.1.events ++ [Ev.typingCancel] }, some run.2)

/-- The session loop exactly as shipped: its first statement is
`await message_buffer.peek_buffered_messages(...)` (line 73), an
attribute lookup on the `MessageBuffer` instance; only if that lookup
succeeded would the loop proceed as modelled. -/
def sessionLoopSrc (chat : ChatId) (sys : Sys) (envs : List AttemptEnv) :
    Sys × Except PyErr LoopExit :=
  match getattrBuffer "peek_buffered_messages" with
  | Except.error e => (sys, Except.error e)
  | Except.ok _ =>
    match runLoop chat sys envs with
    | none => (sys, Except.error PyErr.keyError)
    | some (s, ex) => (s, Except.ok ex)

/-- `handle_text_message` as shipped, wrapping `sessionLoopSrc` in the
same typing-indicator `try`/`finally`. -/
def handle_text_message_src (chat : ChatId) (sys : Sys) (text : String)
    (envs : List AttemptEnv) : Sys × Option (Except PyErr LoopExit) :=
  let sub := submit sys chat text
  if sub.2 = false then
    (sub.1, none)
  else
    let sys2 := { sub.1 with events := sub.1.events ++ [Ev.typingStart] }
    let run := sessionLoopSrc chat sys2 envs
    ({ run.1 with events := run.1.events ++ [Ev.typingCancel] }, some run.2)

/-- The `Settle` calls recorded on a trace:
(combined text, buffer at confirmation, submission log at confirmation). -/
def settles : List Ev → List (String × List String × List String)
  | [] => []
  | Ev.settle c _ b l :: rest => (c, b, l) :: settles rest
  | _ :: rest => settles rest

/-- Number of generation-error apology messages on a trace. -/
def errCount (evs : List Ev) : Nat := evs.count Ev.errMsg

/-- Number of typing-indicator starts on a trace. -/
def typingStarts (evs : List Ev) : Nat := evs.count Ev.typingStart

/-- Number of typing-indicator cancellations on a trace. -/
def typingCancels (evs : List Ev) : Nat := evs.count Ev.typingCancel

/-- A fresh registry: no chat has any state yet. -/
def emptyMap : BufMap := fun _ => none

/-- A fresh system: empty registry, no submissions, no events. -/
def sys0 : Sys := { mb := emptyMap, log := [], events := [] }

/-!
## Trace model of the raw buffer operations (for the mutual-exclusion
claim)

Every `MessageBuffer` method runs under the per-chat lock, so a
concurrent history for one chat is a sequence of atomic method calls.
`runObs` records what each call observed.
-/

/-- One atomic `MessageBuffer` method call for the modelled chat. -/
inductive BufOp where
  | add (text : String)
  | getBuffered
  | peekOp
  | clearOp
  | setTask (t : Nat)
  | hasBuffered
  | finish
deriving DecidableEq, Repr

/-- What a single method call observed. -/
inductive Obs where
  | startSession
  | buffered
  | doneObs
  | moreObs
  | unitObs
  | keyErr
deriving DecidableEq, Repr

/-- Atomic semantics of one method call (a `KeyError` is observed as
`keyErr` and leaves the state unchanged). -/
def stepOp (chat : ChatId) (mb : BufMap) : BufOp → BufMap × Obs
  | BufOp.add t =>
    let r := add_message mb chat t
    (r.1, if r.2 then Obs.startSession else Obs.buffered)
  | BufOp.getBuffered =>
    match get_buffered_messages mb chat with
    | none => (mb, Obs.keyErr)
    | some (mb1, _) => (mb1, Obs.unitObs)
  | BufOp.peekOp =>
    match peek_buffered_messages mb chat with
    | none => (mb, Obs.keyErr)
    | some _ => (mb, Obs.unitObs)
  | BufOp.clearOp =>
    match clear_buffer mb chat with
    | none => (mb, Obs.keyErr)
    | some mb1 => (mb1, Obs.unitObs)
  | BufOp.setTask t =>
    match set_current_task mb chat t with
    | none => (mb, Obs.keyErr)
    | some mb1 => (mb1, Obs.unitObs)
  | BufOp.hasBuffered =>
    match has_buffered_messages mb chat with
    | none => (mb, Obs.keyErr)
    | some _ => (mb, Obs.unitObs)
  | BufOp.finish =>
    match finish_processing mb chat with
    | none => (mb, Obs.keyErr)
    | some (mb1, r) => (mb1, if r then Obs.moreObs else Obs.doneObs)

/-- Observation trace of a sequence of atomic method calls. -/
def runObs (chat : ChatId) : BufMap → List BufOp → List Obs
  | _, [] => []
  | mb, op :: rest =>
    let r := stepOp chat mb op
    r.2 :: runObs chat r.1 rest

/-- Mutual-exclusion checker: scanning the observations with the
session token (`active`), a `startSession` is legal only while no
session holds the token; `doneObs` releases it.  Returns `false` as
soon as a second session would start concurrently. -/
def checkAtMostOne : Bool → List Obs → Bool
  | _, [] => true
  | active, Obs.startSession :: rest =>
    if active then false else checkAtMostOne true rest
  | _, Obs.doneObs :: rest => checkAtMostOne false rest
  | active, _ :: rest => checkAtMostOne active rest

/-! ## Basic lemmas about the buffer operations -/

theorem setState_self (mb : BufMap) (chat : ChatId) (st : UserState) :
    setState mb chat st chat = some st := by
  simp [setState]

theorem setState_other {c chat : ChatId} (mb : BufMap) (st : UserState)
    (h : c ≠ chat) : setState mb chat st c = mb c := by
  simp [setState, h]

theorem add_mb_self (mb : BufMap) (chat : ChatId) (text : String) :
    (add_message mb chat text).1 chat =
      some { (mb chat).getD initState with
             buffer := ((mb chat).getD initState).buffer ++ [text],
             processing := true } := by
  cases h0 : (mb chat).getD initState with
  | mk p b t => cases p <;> simp [add_message, h0, setState]

theorem add_ret (mb : BufMap) (chat : ChatId) (text : String) :
    (add_message mb chat text).2 = !((mb chat).getD initState).processing := by
  cases h0 : (mb chat).getD initState with
  | mk p b t => cases p <;> simp [add_message, h0]

theorem add_other {c chat : ChatId} (mb : BufMap) (text : String)
    (h : c ≠ chat) : (add_message mb chat text).1 c = mb c := by
  cases h0 : (mb chat).getD initState with
  | mk p b t => cases p <;> simp [add_message, h0, setState, h]

theorem add_buffer (mb : BufMap) (chat : ChatId) (text : String) :
    bufferOf (add_message mb chat text).1 chat = bufferOf mb chat ++ [text] := by
  simp [bufferOf, add_mb_self]

theorem add_processing (mb : BufMap) (chat : ChatId) (text : String) :
    processingOf (add_message mb chat text).1 chat = true := by
  simp [processingOf, add_mb_self]

theorem add_isSome (mb : BufMap) (chat : ChatId) (text : String) :
    ((add_message mb chat text).1 chat).isSome = true := by
  simp [add_mb_self]

theorem add_ret_processing (mb : BufMap) (chat : ChatId) (text : String) :
    (add_message mb chat text).2 = !(processingOf mb chat) := add_ret mb chat text

theorem peek_some {mb : BufMap} {chat : ChatId} {st : UserState}
    (h : mb chat = some st) :
    peek_buffered_messages mb chat = some st.buffer := by
  simp [peek_buffered_messages, h]

theorem set_task_some {mb : BufMap} {chat : ChatId} {st : UserState}
    (h : mb chat = some st) (n : Nat) :
    set_current_task mb chat n =
      some (setState mb chat { st with current_task := some n }) := by
  simp [set_current_task, h]

theorem clear_some {mb : BufMap} {chat : ChatId} {st : UserState}
    (h : mb chat = some st) :
    clear_buffer mb chat = some (setState mb chat { st with buffer := [] }) := by
  simp [clear_buffer, h]

theorem finish_some_pos {mb : BufMap} {chat : ChatId} {st : UserState}
    (h : mb chat = some st) (hb : st.buffer ≠ []) :
    finish_processing mb chat = some (mb, true) := by
  simp [finish_processing, h, List.length_pos.mpr hb]

theorem finish_some_nil {mb : BufMap} {chat : ChatId} {st : UserState}
    (h : mb chat = some st) (hb : st.buffer = []) :
    finish_processing mb chat =
      some (setState mb chat { st with processing := false, current_task := none },
            false) := by
  simp [finish_processing, h, hb]

/-! ## Lemmas about submissions -/

theorem submit_mb (sys : Sys) (chat : ChatId) (t : String) :
    (submit sys chat t).1.mb = (add_message sys.mb chat t).1 := rfl

theorem submit_log (sys : Sys) (chat : ChatId) (t : String) :
    (submit sys chat t).1.log = sys.log ++ [t] := rfl

theorem submit_events (sys : Sys) (chat : ChatId) (t : String) :
    (submit sys chat t).1.events = sys.events := rfl

theorem submitAll_nil (sys : Sys) (chat : ChatId) :
    submitAll sys chat [] = sys := rfl

theorem submitAll_cons (sys : Sys) (chat : ChatId) (t : String) (ts : List String) :
    submitAll sys chat (t :: ts) = submitAll (submit sys chat t).1 chat ts := rfl

theorem submitAll_events (sys : Sys) (chat : ChatId) (ts : List String) :
    (submitAll sys chat ts).events = sys.events := by
  induction ts generalizing sys with
  | nil => rfl
  | cons t ts ih => rw [submitAll_cons, ih, submit_events]

theorem submitAll_log (sys : Sys) (chat : ChatId) (ts : List String) :
    (submitAll sys chat ts).log = sys.log ++ ts := by
  induction ts generalizing sys with
  | nil => simp [submitAll_nil]
  | cons t ts ih => rw [submitAll_cons, ih, submit_log, List.append_assoc]; rfl

theorem submitAll_frame {sys : Sys} {chat : ChatId} {st : UserState}
    (h : sys.mb chat = some st) (ts : List String) :
    ∃ st', (submitAll sys chat ts).mb chat = some st' ∧
      st'.buffer = st.buffer ++ ts := by
  induction ts generalizing sys st with
  | nil => exact ⟨st, by simp [submitAll_nil, h], by simp⟩
  | cons t ts ih =>
    rw [submitAll_cons]
    have h1 : (submit sys chat t).1.mb chat =
        some { st with buffer := st.buffer ++ [t], processing := true } := by
      rw [submit_mb]
      rw [add_mb_self]
      simp [h]
    obtain ⟨st', h2, h3⟩ := ih h1
    exact ⟨st', h2, by simp [h3]⟩

theorem submitAll_processing {sys : Sys} {chat : ChatId}
    (h : processingOf sys.mb chat = true) (ts : List String) :
    processingOf (submitAll sys chat ts).mb chat = true := by
  induction ts generalizing sys with
  | nil => exact h
  | cons t ts ih =>
    rw [submitAll_cons]
    exact ih (by rw [submit_mb]; exact add_processing _ _ _)

theorem addAll_all_false {mb : BufMap} {chat : ChatId}
    (h : processingOf mb chat = true) (ts : List String) :
    (∀ b ∈ (addAll mb chat ts).2, b = false) ∧
      processingOf (addAll mb chat ts).1 chat = true := by
  induction ts generalizing mb with
  | nil => exact ⟨by simp [addAll], h⟩
  | cons t ts ih =>
    have hret : (add_message mb chat t).2 = false := by
      rw [add_ret_processing, h]; rfl
    have hp : processingOf (add_message mb chat t).1 chat = true :=
      add_processing _ _ _
    obtain ⟨ih1, ih2⟩ := ih hp
    refine ⟨?_, ?_⟩
    · intro b hb
      simp only [addAll, List.mem_cons] at hb
      rcases hb with hb | hb
      · rw [hb, hret]
      · exact ih1 b hb
    · simpa only [addAll] using ih2

/-! ## Lemmas about the poll loop -/

theorem poll_events {chat : ChatId} {n : Nat} :
    ∀ {arrs : List (List String)} {sys sys' : Sys} {b : Bool},
    pollLoop chat n sys arrs = some (sys', b) → sys'.events = sys.events := by
  intro arrs
  induction arrs with
  | nil =>
    intro sys sys' b h
    simp only [pollLoop] at h
    cases h
    rfl
  | cons arr rest ih =>
    intro sys sys' b h
    simp only [pollLoop] at h
    cases hp : peek_buffered_messages (submitAll sys chat arr).mb chat with
    | none => rw [hp] at h; exact absurd h (by simp)
    | some cur =>
      rw [hp] at h
      simp only at h
      split at h
      · cases h; exact submitAll_events _ _ _
      · exact (ih h).trans (submitAll_events _ _ _)

theorem poll_frame {chat : ChatId} {n : Nat} :
    ∀ {arrs : List (List String)} {sys sys' : Sys} {b : Bool} {st : UserState},
    sys.mb chat = some st → pollLoop chat n sys arrs = some (sys', b) →
    ∃ extra st', sys'.mb chat = some st' ∧ st'.buffer = st.buffer ++ extra ∧
      sys'.log = sys.log ++ extra ∧ sys'.events = sys.events := by
  intro arrs
  induction arrs with
  | nil =>
    intro sys sys' b st h hp
    simp only [pollLoop] at hp
    cases hp
    exact ⟨[], st, by simpa using h, by simp, by simp, rfl⟩
  | cons arr rest ih =>
    intro sys sys' b st h hp
    obtain ⟨st1, h1, hb1⟩ := submitAll_frame h arr
    simp only [pollLoop] at hp
    rw [peek_some h1] at hp
    simp only at hp
    split at hp
    · cases hp
      exact ⟨arr, st1, h1, hb1, submitAll_log _ _ _, submitAll_events _ _ _⟩
    · obtain ⟨extra, st', h2, h3, h4, h5⟩ := ih h1 hp
      refine ⟨arr ++ extra, st', h2, ?_, ?_, ?_⟩
      · rw [h3, hb1, List.append_assoc]
      · rw [h4, submitAll_log, List.append_assoc]
      · rw [h5, submitAll_events]

theorem poll_empty {chat : ChatId} {n : Nat} :
    ∀ {arrs : List (List String)} {sys : Sys} {st : UserState},
    sys.mb chat = some st → st.buffer.length = n → arrs.flatten = [] →
    pollLoop chat n sys arrs = some (sys, false) := by
  intro arrs
  induction arrs with
  | nil => intro sys st h hn hj; rfl
  | cons arr rest ih =>
    intro sys st h hn hj
    rw [List.flatten_cons, List.append_eq_nil] at hj
    obtain ⟨hj1, hj2⟩ := hj
    subst hj1
    simp only [pollLoop, submitAll_nil]
    rw [peek_some h]
    simp only [hn, lt_irrefl, if_false]
    exact ih h hn hj2

theorem poll_join_true {chat : ChatId} {n : Nat} :
    ∀ {arrs : List (List String)} {sys sys' : Sys} {b : Bool} {st : UserState},
    sys.mb chat = some st → st.buffer.length = n → arrs.flatten ≠ [] →
    pollLoop chat n sys arrs = some (sys', b) → b = true := by
  intro arrs
  induction arrs with
  | nil => intro sys sys' b st h hn hj hp; exact absurd rfl hj
  | cons arr rest ih =>
    intro sys sys' b st h hn hj hp
    obtain ⟨st1, h1, hb1⟩ := submitAll_frame h arr
    simp only [pollLoop] at hp
    rw [peek_some h1] at hp
    simp only at hp
    split at hp
    · cases hp; rfl
    · rename_i hguard
      have harr : arr = [] := by
        by_contra hne
        apply hguard
        rw [hb1, List.length_append, ← hn]
        have : 0 < arr.length := List.length_pos.mpr hne
        omega
      subst harr
      rw [submitAll_nil] at hp
      refine ih h hn ?_ hp
      simpa using hj

theorem poll_total {chat : ChatId} {n : Nat} (arrs : List (List String)) :
    ∀ {sys : Sys} {st : UserState},
    sys.mb chat = some st →
    ∃ sys' b, pollLoop chat n sys arrs = some (sys', b) := by
  induction arrs with
  | nil => intro sys st h; exact ⟨sys, false, rfl⟩
  | cons arr rest ih =>
    intro sys st h
    obtain ⟨st1, h1, _⟩ := submitAll_frame h arr
    simp only [pollLoop]
    rw [peek_some h1]
    simp only
    split
    · exact ⟨_, _, rfl⟩
    · exact ih h1

/-! ## The master case analysis of one generation attempt -/

theorem attempt_total {chat : ChatId} {sys : Sys} {st : UserState} (env : AttemptEnv)
    (h : sys.mb chat = some st) :
    ∃ sys' o, runAttempt chat sys env = some (sys', o) ∧
      ((sys'.events = sys.events ∧
        ∃ extra st', sys'.mb chat = some st' ∧ st'.buffer = st.buffer ++ extra ∧
          sys'.log = sys.log ++ extra)
      ∨ (∃ st', sys'.events = sys.events ++ [Ev.errMsg] ∧ sys'.mb chat = some st' ∧
          st'.buffer = [] ∧ st'.processing = false ∧ o = Outcome.retErr ∧
          env.pollArrivals.flatten = [] ∧ env.raceArrivals = [])
      ∨ (∃ out st', sys'.events = sys.events ++
            [Ev.settle (String.intercalate "\n" st.buffer) out st.buffer sys.log] ∧
          sys'.mb chat = some st' ∧ st'.buffer = [] ∧ o ≠ Outcome.retForbidden ∧
          env.pollArrivals.flatten = [] ∧ env.raceArrivals = [])
      ∨ (∃ out, sys'.events = sys.events ++
            [Ev.settle (String.intercalate "\n" st.buffer) out st.buffer sys.log] ∧
          sys'.mb chat = some { st with current_task := some 0 } ∧
          sys'.log = sys.log ∧ o = Outcome.retForbidden ∧
          env.pollArrivals.flatten = [] ∧ env.raceArrivals = [])) := by
  have hpeek := peek_some h
  have htask := set_task_some h 0
  have hT : setState sys.mb chat { st with current_task := some 0 } chat =
      some { st with current_task := some 0 } := setState_self _ _ _
  by_cases hj : env.pollArrivals.flatten = []
  · -- the poll observes no growth and falls through when the task is done
    have hpoll : pollLoop chat st.buffer.length
        { sys with mb := setState sys.mb chat { st with current_task := some 0 } }
        env.pollArrivals =
        some ({ sys with mb := setState sys.mb chat { st with current_task := some 0 } },
              false) :=
      poll_empty hT rfl hj
    by_cases hr : env.raceArrivals = []
    · -- confirmation read agrees with the snapshot
      cases hllm : env.llm with
      | none =>
        -- generation-error path: apology, clear, finish, return
        have hT4 : ({ sys with
            mb := setState sys.mb chat { st with current_task := some 0 },
            events := sys.events ++ [Ev.errMsg] } : Sys).mb chat =
            some { st with current_task := some 0 } := hT
        obtain ⟨st5, h5, hb5⟩ := submitAll_frame hT4 env.errorArrivals
        have hcl : setState (submitAll { sys with
            mb := setState sys.mb chat { st with current_task := some 0 },
            events := sys.events ++ [Ev.errMsg] } chat env.errorArrivals).mb
            chat { st5 with buffer := [] } chat = some { st5 with buffer := [] } :=
          setState_self _ _ _
        simp [runAttempt, hpeek, htask, hpoll, hr, hllm, submitAll_nil,
          peek_some hT, clear_some h5, finish_some_nil hcl rfl]
        exact ⟨_, _, ⟨rfl, rfl⟩, Or.inr (Or.inl
          ⟨by simp [submitAll_events], _, setState_self _ _ _, rfl, rfl, rfl, by simpa using hj⟩)⟩
      | some out =>
        cases hf : env.deliverForbidden with
        | true =>
          simp [runAttempt, hpeek, htask, hpoll, hr, hllm, hf, submitAll_nil,
            peek_some hT]
          exact ⟨_, _, ⟨rfl, rfl⟩, Or.inr (Or.inr (Or.inr
            ⟨⟨out, rfl⟩, hT, rfl, rfl, by simpa using hj⟩))⟩
        | false =>
          have hT4 : ({ sys with
              mb := setState sys.mb chat { st with current_task := some 0 },
              events := sys.events ++
                [Ev.settle (String.intercalate "\n" st.buffer) out st.buffer sys.log] } :
              Sys).mb chat = some { st with current_task := some 0 } := hT
          obtain ⟨st5, h5, hb5⟩ := submitAll_frame hT4 env.settleArrivals
          have hcl : setState (submitAll { sys with
              mb := setState sys.mb chat { st with current_task := some 0 },
              events := sys.events ++
                [Ev.settle (String.intercalate "\n" st.buffer) out st.buffer sys.log] }
              chat env.settleArrivals).mb
              chat { st5 with buffer := [] } chat = some { st5 with buffer := [] } :=
            setState_self _ _ _
          simp [runAttempt, hpeek, htask, hpoll, hr, hllm, hf, submitAll_nil,
            peek_some hT, clear_some h5, finishStep, finish_some_nil hcl rfl]
          exact ⟨_, _, ⟨rfl, rfl⟩, Or.inr (Or.inr (Or.inl
            ⟨⟨out, by simp [submitAll_events]⟩, _, setState_self _ _ _, rfl,
             by simp, by simpa using hj⟩))⟩
    · -- stale-by-race: the re-read sees strictly more fragments
      have hT3 : ({ sys with
          mb := setState sys.mb chat { st with current_task := some 0 } } : Sys).mb
          chat = some { st with current_task := some 0 } := hT
      obtain ⟨st3, h3, hb3⟩ := submitAll_frame hT3 env.raceArrivals
      have hlen : st3.buffer.length ≠ st.buffer.length := by
        rw [hb3]
        simp only [List.length_append]
        have : 0 < env.raceArrivals.length := List.length_pos.mpr hr
        omega
      have hne : st3.buffer ≠ [] := by
        rw [hb3]
        simp [hr]
      simp [runAttempt, hpeek, htask, hpoll, peek_some h3, if_neg hlen, finishStep,
        finish_some_pos h3 hne]
      exact ⟨_, _, ⟨rfl, rfl⟩, Or.inl ⟨by simp [submitAll_events],
        env.raceArrivals, st3, h3, by simpa using hb3, by simp [submitAll_log]⟩⟩
  · -- growth during the poll: the attempt is interrupted
    have hT2 : ({ sys with
        mb := setState sys.mb chat { st with current_task := some 0 } } : Sys).mb
        chat = some { st with current_task := some 0 } := hT
    obtain ⟨sys2, b, hpoll⟩ := poll_total (n := st.buffer.length)
      env.pollArrivals hT2
    have hn : ({ st with current_task := some 0 } : UserState).buffer.length =
        st.buffer.length := rfl
    have hb : b = true := poll_join_true hT hn hj hpoll
    subst hb
    obtain ⟨extra, st2, h2, hb2, hlog2, hev2⟩ := poll_frame hT hpoll
    by_cases hbe : st2.buffer = []
    · simp [runAttempt, hpeek, htask, hpoll, finishStep, finish_some_nil h2 hbe]
      exact ⟨_, _, ⟨rfl, rfl⟩, Or.inl ⟨by simpa using hev2,
        extra, { st2 with processing := false, current_task := none },
        setState_self _ _ _, by simpa using hb2, by simpa using hlog2⟩⟩
    · simp [runAttempt, hpeek, htask, hpoll, finishStep, finish_some_pos h2 hbe]
      exact ⟨_, _, ⟨rfl, rfl⟩, Or.inl ⟨by simpa using hev2, extra, st2, h2,
        by simpa using hb2, by simpa using hlog2⟩⟩

/-! ## Event traces only ever grow, by settle or error events -/

theorem settles_append (a b : List Ev) :
    settles (a ++ b) = settles a ++ settles b := by
  induction a with
  | nil => rfl
  | cons e rest ih => cases e <;> simp [settles, ih]

theorem attempt_events {chat : ChatId} {sys sys' : Sys} {env : AttemptEnv}
    {o : Outcome} (h : runAttempt chat sys env = some (sys', o)) :
    ∃ exl, sys'.events = sys.events ++ exl ∧
      ∀ e ∈ exl, e = Ev.errMsg ∨ ∃ c out bc lc, e = Ev.settle c out bc lc := by
  unfold runAttempt at h
  cases h1 : peek_buffered_messages sys.mb chat with
  | none => rw [h1] at h; exact absurd h (by simp)
  | some messages =>
  rw [h1] at h
  simp only at h
  cases h2 : set_current_task sys.mb chat 0 with
  | none => rw [h2] at h; exact absurd h (by simp)
  | some mb1 =>
  rw [h2] at h
  simp only at h
  cases h3 : pollLoop chat messages.length { sys with mb := mb1 } env.pollArrivals with
  | none => rw [h3] at h; exact absurd h (by simp)
  | some p =>
  obtain ⟨sys2, b⟩ := p
  rw [h3] at h
  have hev2 : sys2.events = sys.events := by
    have h' := poll_events h3
    simpa using h'
  cases b with
  | true =>
    simp only [finishStep] at h
    cases h4 : finish_processing sys2.mb chat with
    | none => rw [h4] at h; exact absurd h (by simp)
    | some q =>
      obtain ⟨mb3, r⟩ := q
      rw [h4] at h
      simp only [if_true, Option.some.injEq, Prod.mk.injEq] at h
      obtain ⟨hs, _⟩ := h
      subst hs
      exact ⟨[], by simp [hev2], by simp⟩
  | false =>
  simp only [Bool.false_eq_true, if_false] at h
  have hev3 : (submitAll sys2 chat env.raceArrivals).events = sys.events := by
    rw [submitAll_events, hev2]
  cases h4 : peek_buffered_messages (submitAll sys2 chat env.raceArrivals).mb chat with
  | none => rw [h4] at h; exact absurd h (by simp)
  | some current =>
  rw [h4] at h
  simp only at h
  by_cases h5 : current.length = messages.length
  · rw [if_pos h5] at h
    cases h6 : env.llm with
    | none =>
      rw [h6] at h
      simp only at h
      cases h7 : clear_buffer (submitAll { submitAll sys2 chat env.raceArrivals with
          events := (submitAll sys2 chat env.raceArrivals).events ++ [Ev.errMsg] }
          chat env.errorArrivals).mb chat with
      | none => rw [h7] at h; exact absurd h (by simp)
      | some mb2 =>
        rw [h7] at h
        simp only at h
        cases h8 : finish_processing mb2 chat with
        | none => rw [h8] at h; exact absurd h (by simp)
        | some q =>
          obtain ⟨mb3, r⟩ := q
          rw [h8] at h
          simp only [Option.some.injEq, Prod.mk.injEq] at h
          obtain ⟨hs, _⟩ := h
          subst hs
          refine ⟨[Ev.errMsg], ?_, by simp⟩
          simp [submitAll_events, hev2, hev3]
    | some out =>
      rw [h6] at h
      simp only at h
      cases hf : env.deliverForbidden with
      | true =>
        rw [hf] at h
        simp only [if_true, Option.some.injEq, Prod.mk.injEq] at h
        obtain ⟨hs, _⟩ := h
        subst hs
        refine ⟨[Ev.settle (String.intercalate "\n" messages) out current
          (submitAll sys2 chat env.raceArrivals).log], ?_, by simp⟩
        simp [hev3]
      | false =>
        rw [hf] at h
        simp only [Bool.false_eq_true, if_false] at h
        cases h7 : clear_buffer (submitAll { submitAll sys2 chat env.raceArrivals with
            events := (submitAll sys2 chat env.raceArrivals).events ++
              [Ev.settle (String.intercalate "\n" messages) out current
                (submitAll sys2 chat env.raceArrivals).log] }
            chat env.settleArrivals).mb chat with
        | none => rw [h7] at h; exact absurd h (by simp)
        | some mb2 =>
          rw [h7] at h
          simp only [finishStep] at h
          cases h8 : finish_processing mb2 chat with
          | none => rw [h8] at h; exact absurd h (by simp)
          | some q =>
            obtain ⟨mb3, r⟩ := q
            rw [h8] at h
            simp only [Option.some.injEq, Prod.mk.injEq] at h
            obtain ⟨hs, _⟩ := h
            subst hs
            refine ⟨[Ev.settle (String.intercalate "\n" messages) out current
              (submitAll sys2 chat env.raceArrivals).log], ?_, by simp⟩
            simp [submitAll_events, hev2, hev3]
  · rw [if_neg h5] at h
    simp only [finishStep] at h
    cases h6 : finish_processing (submitAll sys2 chat env.raceArrivals).mb chat with
    | none => rw [h6] at h; exact absurd h (by simp)
    | some q =>
      obtain ⟨mb3, r⟩ := q
      rw [h6] at h
      simp only [Option.some.injEq, Prod.mk.injEq] at h
      obtain ⟨hs, _⟩ := h
      subst hs
      exact ⟨[], by simp [hev3], by simp⟩

theorem loop_events {chat : ChatId} :
    ∀ {envs : List AttemptEnv} {sys sys' : Sys} {ex : LoopExit},
    runLoop chat sys envs = some (sys', ex) →
    ∃ exl, sys'.events = sys.events ++ exl ∧
      ∀ e ∈ exl, e = Ev.errMsg ∨ ∃ c out bc lc, e = Ev.settle c out bc lc := by
  intro envs
  induction envs with
  | nil =>
    intro sys sys' ex h
    simp only [runLoop, Option.some.injEq, Prod.mk.injEq] at h
    obtain ⟨hs, _⟩ := h
    subst hs
    exact ⟨[], by simp, by simp⟩
  | cons env rest ih =>
    intro sys sys' ex h
    simp only [runLoop] at h
    cases hA : runAttempt chat sys env with
    | none => rw [hA] at h; exact absurd h (by simp)
    | some p =>
      obtain ⟨sys1, o⟩ := p
      rw [hA] at h
      obtain ⟨exl1, he1, hm1⟩ := attempt_events hA
      cases o with
      | continueLoop =>
        simp only at h
        obtain ⟨exl2, he2, hm2⟩ := ih h
        refine ⟨exl1 ++ exl2, by rw [he2, he1, List.append_assoc], ?_⟩
        intro e he
        rcases List.mem_append.mp he with he | he
        · exact hm1 e he
        · exact hm2 e he
      | stopLoop =>
        simp only [Option.some.injEq, Prod.mk.injEq] at h
        obtain ⟨hs, _⟩ := h
        subst hs
        exact ⟨exl1, he1, hm1⟩
      | retErr =>
        simp only [Option.some.injEq, Prod.mk.injEq] at h
        obtain ⟨hs, _⟩ := h
        subst hs
        exact ⟨exl1, he1, hm1⟩
      | retForbidden =>
        simp only [Option.some.injEq, Prod.mk.injEq] at h
        obtain ⟨hs, _⟩ := h
        subst hs
        exact ⟨exl1, he1, hm1⟩

/-! ## The first settlement uses the whole submission log -/

theorem loop_first_settle {chat : ChatId} :
    ∀ {envs : List AttemptEnv} {sys sys' : Sys} {ex : LoopExit} {st : UserState},
    sys.mb chat = some st → st.buffer = sys.log → settles sys.events = [] →
    runLoop chat sys envs = some (sys', ex) →
    settles sys'.events = [] ∨
      ∃ c b l rest, settles sys'.events = (c, b, l) :: rest ∧
        c = String.intercalate "\n" l ∧ b = l := by
  intro envs
  induction envs with
  | nil =>
    intro sys sys' ex st hkey hinv hset h
    simp only [runLoop, Option.some.injEq, Prod.mk.injEq] at h
    obtain ⟨hs, _⟩ := h
    subst hs
    exact Or.inl hset
  | cons env rest ih =>
    intro sys sys' ex st hkey hinv hset h
    simp only [runLoop] at h
    obtain ⟨sysA, o, hA, hbr⟩ := attempt_total env hkey
    rw [hA] at h
    rcases hbr with ⟨hev, extra, st', hmb, hbuf, hlog⟩ |
      ⟨st', hev, hmb, hbe, hpr, ho, hjB, hrB⟩ |
      ⟨out, st', hev, hmb, hbe, hno, hjC, hrC⟩ |
      ⟨out, hev, hmb, hlog, ho, hjD, hrD⟩
    · have hset1 : settles sysA.events = [] := by rw [hev]; exact hset
      have hinv1 : st'.buffer = sysA.log := by rw [hbuf, hlog, hinv]
      cases o with
      | continueLoop =>
        simp only at h
        exact ih hmb hinv1 hset1 h
      | stopLoop =>
        simp only [Option.some.injEq, Prod.mk.injEq] at h
        obtain ⟨hs, _⟩ := h
        subst hs
        exact Or.inl hset1
      | retErr =>
        simp only [Option.some.injEq, Prod.mk.injEq] at h
        obtain ⟨hs, _⟩ := h
        subst hs
        exact Or.inl hset1
      | retForbidden =>
        simp only [Option.some.injEq, Prod.mk.injEq] at h
        obtain ⟨hs, _⟩ := h
        subst hs
        exact Or.inl hset1
    · subst ho
      simp only [Option.some.injEq, Prod.mk.injEq] at h
      obtain ⟨hs, _⟩ := h
      subst hs
      refine Or.inl ?_
      rw [hev, settles_append, hset]
      simp [settles]
    · have hsetA : settles sysA.events =
          [(String.intercalate "\n" st.buffer, st.buffer, sys.log)] := by
        rw [hev, settles_append, hset]
        simp [settles]
      cases o with
      | continueLoop =>
        simp only at h
        obtain ⟨exl, he, _⟩ := loop_events h
        refine Or.inr ⟨String.intercalate "\n" st.buffer, st.buffer, sys.log,
          settles exl, ?_, ?_, hinv⟩
        · rw [he, settles_append, hsetA]; rfl
        · rw [hinv]
      | stopLoop =>
        simp only [Option.some.injEq, Prod.mk.injEq] at h
        obtain ⟨hs, _⟩ := h
        subst hs
        exact Or.inr ⟨_, _, _, [], hsetA, by rw [hinv], hinv⟩
      | retErr =>
        simp only [Option.some.injEq, Prod.mk.injEq] at h
        obtain ⟨hs, _⟩ := h
        subst hs
        exact Or.inr ⟨_, _, _, [], hsetA, by rw [hinv], hinv⟩
      | retForbidden => exact absurd rfl hno
    · subst ho
      simp only [Option.some.injEq, Prod.mk.injEq] at h
      obtain ⟨hs, _⟩ := h
      subst hs
      have hsetA : settles sysA.events =
          [(String.intercalate "\n" st.buffer, st.buffer, sys.log)] := by
        rw [hev, settles_append, hset]
        simp [settles]
      exact Or.inr ⟨_, _, _, [], hsetA, by rw [hinv], hinv⟩

/-! ## Claim theorems -/

/-- C6: `add_message` appends the text to the key's buffer (creating the
state on first use), returns `True` and sets `processing` exactly when
`processing` was `False`, returns `False` leaving `processing` true when
a session is already running, and in every case grows the buffer by
exactly that one element, leaving every other key untouched. -/
theorem c6_add_message_contract (mb : BufMap) (chat : ChatId) (text : String) :
    bufferOf (add_message mb chat text).1 chat = bufferOf mb chat ++ [text] ∧
    ((add_message mb chat text).1 chat).isSome = true ∧
    (add_message mb chat text).2 = !(processingOf mb chat) ∧
    processingOf (add_message mb chat text).1 chat = true ∧
    ∀ c, c ≠ chat → (add_message mb chat text).1 c = mb c :=
  ⟨add_buffer mb chat text, add_isSome mb chat text, add_ret_processing mb chat text,
   add_processing mb chat text, fun _ hc => add_other mb text hc⟩

/-- C8: for a key with existing state, `finish_processing` returns
`False` ("done") and resets `processing` and `current_task` exactly when
the buffer is empty; when the buffer is non-empty it returns `True`
("continue") and leaves the whole state untouched. -/
theorem c8_finish_contract (mb : BufMap) (chat : ChatId) (st : UserState)
    (h : mb chat = some st) :
    (st.buffer = [] → finish_processing mb chat =
      some (setState mb chat { st with processing := false, current_task := none },
            false)) ∧
    (st.buffer ≠ [] → finish_processing mb chat = some (mb, true)) :=
  ⟨fun hb => finish_some_nil h hb, fun hb => finish_some_pos h hb⟩

theorem c8_witness :
    setState emptyMap 5 ⟨true, [], some 3⟩ 5 = some ⟨true, [], some 3⟩ ∧
    finish_processing (setState emptyMap 5 ⟨true, [], some 3⟩) 5 =
      some (setState (setState emptyMap 5 ⟨true, [], some 3⟩) 5 ⟨false, [], none⟩,
            false) :=
  ⟨setState_self _ _ _,
   (c8_finish_contract (setState emptyMap 5 ⟨true, [], some 3⟩) 5 ⟨true, [], some 3⟩
     (setState_self _ _ _)).1 rfl⟩

/-- C3: the `MessageBuffer` class defines neither
`peek_buffered_messages` nor `clear_buffer` (only
`get_buffered_messages` exists), so the session loop as shipped —
whose first statement is the `peek_buffered_messages` attribute
access — raises an `AttributeError` on every input, before any
generation result can be settled. -/
theorem c3_missing_methods :
    messageBufferClassDefs.contains "peek_buffered_messages" = false ∧
    messageBufferClassDefs.contains "clear_buffer" = false ∧
    messageBufferClassDefs.contains "get_buffered_messages" = true ∧
    ∀ (chat : ChatId) (sys : Sys) (envs : List AttemptEnv),
      sessionLoopSrc chat sys envs =
        (sys, Except.error (PyErr.attributeError "peek_buffered_messages")) :=
  ⟨by decide, by decide, by decide, fun _ _ _ => rfl⟩

/-- C2: over every sequence of atomic buffer-method calls for one key,
an `add_message` call observes `processing == false` and returns
`StartSession` only while no session holds the key (`checkAtMostOne`
rejects a `startSession` observation while a previous one has not been
released by a `finish_processing` returning "done"); hence two session
loops never run concurrently for the same key. -/
theorem c2_at_most_one_active (chat : ChatId) (mb : BufMap) (ops : List BufOp) :
    checkAtMostOne (processingOf mb chat) (runObs chat mb ops) = true := by
  induction ops generalizing mb with
  | nil => rfl
  | cons op rest ih =>
    cases op with
    | add t =>
      cases hp : processingOf mb chat with
      | true =>
        have hr : (add_message mb chat t).2 = false := by
          rw [add_ret_processing, hp]; rfl
        have hx := ih (add_message mb chat t).1
        rw [add_processing] at hx
        simpa [runObs, stepOp, hr, checkAtMostOne, hp] using hx
      | false =>
        have hr : (add_message mb chat t).2 = true := by
          rw [add_ret_processing, hp]; rfl
        have hx := ih (add_message mb chat t).1
        rw [add_processing] at hx
        simpa [runObs, stepOp, hr, checkAtMostOne, hp] using hx
    | getBuffered =>
      cases hc : mb chat with
      | none =>
        have hx := ih mb
        simpa [runObs, stepOp, get_buffered_messages, hc, checkAtMostOne] using hx
      | some st =>
        have hx := ih (setState mb chat { st with buffer := [] })
        have hpp : processingOf (setState mb chat { st with buffer := [] }) chat =
            processingOf mb chat := by
          simp [processingOf, setState_self, hc]
        rw [hpp] at hx
        simpa [runObs, stepOp, get_buffered_messages, hc, checkAtMostOne] using hx
    | peekOp =>
      cases hc : mb chat with
      | none =>
        have hx := ih mb
        simpa [runObs, stepOp, peek_buffered_messages, hc, checkAtMostOne] using hx
      | some st =>
        have hx := ih mb
        simpa [runObs, stepOp, peek_buffered_messages, hc, checkAtMostOne] using hx
    | clearOp =>
      cases hc : mb chat with
      | none =>
        have hx := ih mb
        simpa [runObs, stepOp, clear_buffer, hc, checkAtMostOne] using hx
      | some st =>
        have hx := ih (setState mb chat { st with buffer := [] })
        have hpp : processingOf (setState mb chat { st with buffer := [] }) chat =
            processingOf mb chat := by
          simp [processingOf, setState_self, hc]
        rw [hpp] at hx
        simpa [runObs, stepOp, clear_buffer, hc, checkAtMostOne] using hx
    | setTask t =>
      cases hc : mb chat with
      | none =>
        have hx := ih mb
        simpa [runObs, stepOp, set_current_task, hc, checkAtMostOne] using hx
      | some st =>
        have hx := ih (setState mb chat { st with current_task := some t })
        have hpp : processingOf (setState mb chat { st with current_task := some t })
            chat = processingOf mb chat := by
          simp [processingOf, setState_self, hc]
        rw [hpp] at hx
        simpa [runObs, stepOp, set_current_task, hc, checkAtMostOne] using hx
    | hasBuffered =>
      cases hc : mb chat with
      | none =>
        have hx := ih mb
        simpa [runObs, stepOp, has_buffered_messages, hc, checkAtMostOne] using hx
      | some st =>
        have hx := ih mb
        simpa [runObs, stepOp, has_buffered_messages, hc, checkAtMostOne] using hx
    | finish =>
      cases hc : mb chat with
      | none =>
        have hx := ih mb
        simpa [runObs, stepOp, finish_processing, hc, checkAtMostOne] using hx
      | some st =>
        cases hb : st.buffer with
        | nil =>
          have hfin := finish_some_nil hc hb
          have hx := ih
            (setState mb chat { st with processing := false, current_task := none })
          have hpp : processingOf
              (setState mb chat { st with processing := false, current_task := none })
              chat = false := by
            simp [processingOf, setState_self]
          rw [hpp] at hx
          simpa [runObs, stepOp, hfin, checkAtMostOne] using hx
        | cons a as =>
          have hfin := finish_some_pos hc (by rw [hb]; simp)
          have hx := ih mb
          simpa [runObs, stepOp, hfin, checkAtMostOne] using hx

/-- C4: if a fragment is submitted for the same key strictly after an
attempt's snapshot and strictly before its completion is acted upon —
during a poll sleep (so the poll loop sees the buffer exceed the
snapshot) or in the completion race before the single post-completion
re-read — then that attempt settles nothing (`save_to_context_and_format`
is never reached), sends no error message, and leaves every buffered
fragment in place (the buffer is only extended, never cleared). -/
theorem c4_stale_discard (chat : ChatId) (sys : Sys) (st : UserState)
    (env : AttemptEnv) (hkey : sys.mb chat = some st)
    (hgrow : env.pollArrivals.flatten ≠ [] ∨ env.raceArrivals ≠ []) :
    ∃ sys' o, runAttempt chat sys env = some (sys', o) ∧
      settles sys'.events = settles sys.events ∧
      errCount sys'.events = errCount sys.events ∧
      ∃ extra, bufferOf sys'.mb chat = st.buffer ++ extra := by
  obtain ⟨sys', o, hrun, hbr⟩ := attempt_total env hkey
  refine ⟨sys', o, hrun, ?_⟩
  rcases hbr with ⟨hev, extra, st', hmb, hbuf, hlog⟩ |
    ⟨st', hev, hmb, hbe, hpr, ho, hjB, hrB⟩ |
    ⟨out, st', hev, hmb, hbe, hno, hjC, hrC⟩ |
    ⟨out, hev, hmb, hlog, ho, hjD, hrD⟩
  · exact ⟨by rw [hev], by rw [hev], extra, by simp [bufferOf, hmb, hbuf]⟩
  · rcases hgrow with hg | hg
    · exact absurd hjB hg
    · exact absurd hrB hg
  · rcases hgrow with hg | hg
    · exact absurd hjC hg
    · exact absurd hrC hg
  · rcases hgrow with hg | hg
    · exact absurd hjD hg
    · exact absurd hrD hg

theorem c4_witness :
    (submit sys0 1 "a").1.mb 1 = some ⟨true, ["a"], none⟩ ∧
    ((⟨[["b"]], [], some "r", false, [], []⟩ : AttemptEnv).pollArrivals.flatten ≠ [] ∨
      (⟨[["b"]], [], some "r", false, [], []⟩ : AttemptEnv).raceArrivals ≠ []) ∧
    (∃ sys' o, runAttempt 1 (submit sys0 1 "a").1
        ⟨[["b"]], [], some "r", false, [], []⟩ = some (sys', o) ∧
      settles sys'.events = settles (submit sys0 1 "a").1.events ∧
      errCount sys'.events = errCount (submit sys0 1 "a").1.events ∧
      ∃ extra, bufferOf sys'.mb 1 = ["a"] ++ extra) :=
  ⟨by decide, Or.inl (by decide),
   c4_stale_discard 1 (submit sys0 1 "a").1 ⟨true, ["a"], none⟩
     ⟨[["b"]], [], some "r", false, [], []⟩ (by decide) (Or.inl (by decide))⟩

/-- C5: the snapshot (`peek_buffered_messages`, modelled from the spec)
returns the pending fragment list itself and — being a pure read — does
not clear or trim it; across one whole attempt the pending list either
grows by appended arrivals or becomes exactly empty, the empty case
occurring only on the generation-error path (one apology sent) or the
settlement path (one `Settle` call recorded), never partially. -/
theorem c5_snapshot_frame :
    (∀ (mb : BufMap) (chat : ChatId) (st : UserState), mb chat = some st →
      peek_buffered_messages mb chat = some st.buffer) ∧
    (∀ (chat : ChatId) (sys : Sys) (st : UserState) (env : AttemptEnv),
      sys.mb chat = some st →
      ∃ sys' o, runAttempt chat sys env = some (sys', o) ∧
        ((∃ extra, bufferOf sys'.mb chat = st.buffer ++ extra) ∨
          (bufferOf sys'.mb chat = [] ∧
            (errCount sys'.events = errCount sys.events + 1 ∨
              settles sys'.events = settles sys.events ++
                [(String.intercalate "\n" st.buffer, st.buffer, sys.log)])))) := by
  constructor
  · intro mb chat st h
    exact peek_some h
  · intro chat sys st env hkey
    obtain ⟨sys', o, hrun, hbr⟩ := attempt_total env hkey
    refine ⟨sys', o, hrun, ?_⟩
    rcases hbr with ⟨hev, extra, st', hmb, hbuf, hlog⟩ |
      ⟨st', hev, hmb, hbe, hpr, ho, hjB, hrB⟩ |
      ⟨out, st', hev, hmb, hbe, hno, hjC, hrC⟩ |
      ⟨out, hev, hmb, hlog, ho, hjD, hrD⟩
    · exact Or.inl ⟨extra, by simp [bufferOf, hmb, hbuf]⟩
    · refine Or.inr ⟨by simp [bufferOf, hmb, hbe], Or.inl ?_⟩
      rw [hev]
      simp [errCount, List.count_append]
    · refine Or.inr ⟨by simp [bufferOf, hmb, hbe], Or.inr ?_⟩
      rw [hev, settles_append]
      simp [settles]
    · exact Or.inl ⟨[], by simp [bufferOf, hmb]⟩

theorem c5_witness :
    setState emptyMap 2 ⟨true, ["x"], none⟩ 2 = some ⟨true, ["x"], none⟩ ∧
    peek_buffered_messages (setState emptyMap 2 ⟨true, ["x"], none⟩) 2 = some ["x"] ∧
    (∃ sys' o, runAttempt 2 (submit sys0 2 "x").1 ⟨[], [], some "r", false, [], []⟩ =
        some (sys', o) ∧
      ((∃ extra, bufferOf sys'.mb 2 = ["x"] ++ extra) ∨
        (bufferOf sys'.mb 2 = [] ∧
          (errCount sys'.events = errCount (submit sys0 2 "x").1.events + 1 ∨
            settles sys'.events = settles (submit sys0 2 "x").1.events ++
              [(String.intercalate "\n" ["x"], ["x"], (submit sys0 2 "x").1.log)])))) :=
  ⟨setState_self _ _ _,
   c5_snapshot_frame.1 (setState emptyMap 2 ⟨true, ["x"], none⟩) 2 ⟨true, ["x"], none⟩
     (setState_self _ _ _),
   c5_snapshot_frame.2 2 (submit sys0 2 "x").1 ⟨true, ["x"], none⟩
     ⟨[], [], some "r", false, [], []⟩ (by decide)⟩

/-- C7: when the generation task completes uninterrupted and returns no
usable output (`None`), the handler sends exactly one error message for
the whole batch, clears the pending buffer (whatever arrived during the
apology send included), finishes processing (the flag is reset), exits
the session loop at once regardless of remaining fuel, and settles
nothing. -/
theorem c7_error_clears_batch (chat : ChatId) (sys : Sys) (st : UserState)
    (env : AttemptEnv) (rest : List AttemptEnv)
    (hkey : sys.mb chat = some st)
    (hjq : env.pollArrivals.flatten = [])
    (hra : env.raceArrivals = [])
    (hllm : env.llm = none) :
    ∃ sys', runLoop chat sys (env :: rest) = some (sys', LoopExit.errorReturn) ∧
      sys'.events = sys.events ++ [Ev.errMsg] ∧
      errCount sys'.events = errCount sys.events + 1 ∧
      settles sys'.events = settles sys.events ∧
      bufferOf sys'.mb chat = [] ∧
      processingOf sys'.mb chat = false := by
  have hpeek := peek_some hkey
  have htask := set_task_some hkey 0
  have hT : setState sys.mb chat { st with current_task := some 0 } chat =
      some { st with current_task := some 0 } := setState_self _ _ _
  have hpoll : pollLoop chat st.buffer.length
      { sys with mb := setState sys.mb chat { st with current_task := some 0 } }
      env.pollArrivals =
      some ({ sys with mb := setState sys.mb chat { st with current_task := some 0 } },
            false) :=
    poll_empty hT rfl hjq
  have hT4 : ({ sys with
      mb := setState sys.mb chat { st with current_task := some 0 },
      events := sys.events ++ [Ev.errMsg] } : Sys).mb chat =
      some { st with current_task := some 0 } := hT
  obtain ⟨st5, h5, hb5⟩ := submitAll_frame hT4 env.errorArrivals
  have hcl : setState (submitAll { sys with
      mb := setState sys.mb chat { st with current_task := some 0 },
      events := sys.events ++ [Ev.errMsg] } chat env.errorArrivals).mb
      chat { st5 with buffer := [] } chat = some { st5 with buffer := [] } :=
    setState_self _ _ _
  simp [runLoop, runAttempt, hpeek, htask, hpoll, hra, hllm, submitAll_nil,
    peek_some hT, clear_some h5, finish_some_nil hcl rfl]
  refine ⟨by simp [submitAll_events], ?_, ?_, ?_, ?_⟩
  · simp [submitAll_events, errCount, List.count_append]
  · rw [submitAll_events]
    show settles (sys.events ++ [Ev.errMsg]) = settles sys.events
    rw [settles_append]
    simp [settles]
  · simp [bufferOf, setState_self]
  · simp [processingOf, setState_self]

theorem c7_witness :
    (submit sys0 3 "a").1.mb 3 = some ⟨true, ["a"], none⟩ ∧
    (∃ sys', runLoop 3 (submit sys0 3 "a").1 [⟨[], [], none, false, [], []⟩] =
        some (sys', LoopExit.errorReturn) ∧
      sys'.events = (submit sys0 3 "a").1.events ++ [Ev.errMsg] ∧
      errCount sys'.events = errCount (submit sys0 3 "a").1.events + 1 ∧
      settles sys'.events = settles (submit sys0 3 "a").1.events ∧
      bufferOf sys'.mb 3 = [] ∧
      processingOf sys'.mb 3 = false) :=
  ⟨by decide,
   c7_error_clears_batch 3 (submit sys0 3 "a").1 ⟨true, ["a"], none⟩
     ⟨[], [], none, false, [], []⟩ [] (by decide) rfl rfl rfl⟩

/-- C10: if delivery of a valid result raises `TelegramForbiddenError`,
the handler returns without clearing the buffer and without calling
`finish_processing`: the key's `processing` flag stays true, so every
later `add_message` for that key returns `False` and keeps the flag
true — no new session is ever started for the key again. -/
theorem c10_forbidden_stuck (chat : ChatId) (sys : Sys) (st : UserState)
    (env : AttemptEnv) (rest : List AttemptEnv) (out : String)
    (hkey : sys.mb chat = some st)
    (hproc : st.processing = true)
    (hjq : env.pollArrivals.flatten = [])
    (hra : env.raceArrivals = [])
    (hllm : env.llm = some out)
    (hf : env.deliverForbidden = true) :
    ∃ sys', runLoop chat sys (env :: rest) = some (sys', LoopExit.forbidden) ∧
      processingOf sys'.mb chat = true ∧
      bufferOf sys'.mb chat = st.buffer ∧
      ∀ ts, (∀ b ∈ (addAll sys'.mb chat ts).2, b = false) ∧
        processingOf (addAll sys'.mb chat ts).1 chat = true := by
  have hpeek := peek_some hkey
  have htask := set_task_some hkey 0
  have hT : setState sys.mb chat { st with current_task := some 0 } chat =
      some { st with current_task := some 0 } := setState_self _ _ _
  have hpoll : pollLoop chat st.buffer.length
      { sys with mb := setState sys.mb chat { st with current_task := some 0 } }
      env.pollArrivals =
      some ({ sys with mb := setState sys.mb chat { st with current_task := some 0 } },
            false) :=
    poll_empty hT rfl hjq
  have hproc1 : processingOf (setState sys.mb chat { st with current_task := some 0 })
      chat = true := by
    simp [processingOf, setState_self, hproc]
  simp [runLoop, runAttempt, hpeek, htask, hpoll, hra, hllm, hf, submitAll_nil,
    peek_some hT]
  refine ⟨hproc1, by simp [bufferOf, setState_self], ?_⟩
  intro ts
  refine ⟨?_, (addAll_all_false hproc1 ts).2⟩
  intro hmem
  have hb := (addAll_all_false hproc1 ts).1 true hmem
  simp at hb

theorem c10_witness :
    (submit sys0 4 "a").1.mb 4 = some ⟨true, ["a"], none⟩ ∧
    (⟨true, ["a"], none⟩ : UserState).processing = true ∧
    (∃ sys', runLoop 4 (submit sys0 4 "a").1 [⟨[], [], some "r", true, [], []⟩] =
        some (sys', LoopExit.forbidden) ∧
      processingOf sys'.mb 4 = true ∧
      bufferOf sys'.mb 4 = ["a"] ∧
      ∀ ts, (∀ b ∈ (addAll sys'.mb 4 ts).2, b = false) ∧
        processingOf (addAll sys'.mb 4 ts).1 4 = true) :=
  ⟨by decide, rfl,
   c10_forbidden_stuck 4 (submit sys0 4 "a").1 ⟨true, ["a"], none⟩
     ⟨[], [], some "r", true, [], []⟩ [] "r" (by decide) rfl rfl rfl rfl rfl⟩

/-! ## Typing-indicator bookkeeping -/

theorem count_typing_zero {exl : List Ev}
    (hm : ∀ e ∈ exl, e = Ev.errMsg ∨ ∃ c out bc lc, e = Ev.settle c out bc lc) :
    typingStarts exl = 0 ∧ typingCancels exl = 0 := by
  constructor
  · simp only [typingStarts, List.count_eq_zero]
    intro hmem
    rcases hm _ hmem with h | ⟨c, o, bc, lc, h⟩ <;> simp at h
  · simp only [typingCancels, List.count_eq_zero]
    intro hmem
    rcases hm _ hmem with h | ⟨c, o, bc, lc, h⟩ <;> simp at h

theorem handle_events_false {chat : ChatId} {sys : Sys} {text : String}
    (envs : List AttemptEnv) (hr : (submit sys chat text).2 = false) :
    (handle_text_message chat sys text envs).1.events = sys.events ∧
    (handle_text_message_src chat sys text envs).1.events = sys.events := by
  constructor <;>
    simp [handle_text_message, handle_text_message_src, hr, submit_events]

theorem handle_events_true {chat : ChatId} {sys : Sys} {text : String}
    (envs : List AttemptEnv) (hr : (submit sys chat text).2 = true) :
    ∃ exl, (handle_text_message chat sys text envs).1.events =
      sys.events ++ [Ev.typingStart] ++ exl ++ [Ev.typingCancel] ∧
      ∀ e ∈ exl, e = Ev.errMsg ∨ ∃ c out bc lc, e = Ev.settle c out bc lc := by
  cases hL : runLoop chat { (submit sys chat text).1 with
      events := (submit sys chat text).1.events ++ [Ev.typingStart] } envs with
  | none =>
    simp only [submit_events] at hL
    refine ⟨[], ?_, by simp⟩
    simp [handle_text_message, hr, hL, submit_events]
  | some p =>
    obtain ⟨s, ex⟩ := p
    obtain ⟨exl, he, hm⟩ := loop_events hL
    simp only [submit_events] at hL he
    refine ⟨exl, ?_, hm⟩
    simp [handle_text_message, hr, hL, he, submit_events, List.append_assoc]

theorem handle_src_events_true {chat : ChatId} {sys : Sys} {text : String}
    (envs : List AttemptEnv) (hr : (submit sys chat text).2 = true) :
    (handle_text_message_src chat sys text envs).1.events =
      sys.events ++ [Ev.typingStart] ++ [Ev.typingCancel] := by
  have hsrc : sessionLoopSrc chat { (submit sys chat text).1 with
      events := (submit sys chat text).1.events ++ [Ev.typingStart] } envs =
      ({ (submit sys chat text).1 with
         events := (submit sys chat text).1.events ++ [Ev.typingStart] },
       Except.error (PyErr.attributeError "peek_buffered_messages")) := rfl
  simp only [submit_events] at hsrc
  simp [handle_text_message_src, hr, hsrc, submit_events, List.append_assoc]

/-- C9: the recurring typing indicator is started exactly once per
accepted `StartSession` — not at all for a buffered fragment — and is
cancelled exactly once on every exit path of the session loop: normal
completion, generation-error return, delivery-forbidden return, fuel
exhaustion, a `KeyError`, and (in the handler as shipped) the
`AttributeError` raised by the missing buffer methods. -/
theorem c9_typing_lifecycle (chat : ChatId) (mb : BufMap) (lg : List String)
    (text : String) (envs : List AttemptEnv) :
    typingStarts (handle_text_message chat ⟨mb, lg, []⟩ text envs).1.events =
      (if (add_message mb chat text).2 then 1 else 0) ∧
    typingCancels (handle_text_message chat ⟨mb, lg, []⟩ text envs).1.events =
      (if (add_message mb chat text).2 then 1 else 0) ∧
    typingStarts (handle_text_message_src chat ⟨mb, lg, []⟩ text envs).1.events =
      (if (add_message mb chat text).2 then 1 else 0) ∧
    typingCancels (handle_text_message_src chat ⟨mb, lg, []⟩ text envs).1.events =
      (if (add_message mb chat text).2 then 1 else 0) := by
  cases hr : (add_message mb chat text).2 with
  | false =>
    have hr' : (submit ⟨mb, lg, []⟩ chat text).2 = false := hr
    obtain ⟨h1, h2⟩ := handle_events_false envs hr'
    simp [h1, h2, typingStarts, typingCancels]
  | true =>
    have hr' : (submit ⟨mb, lg, []⟩ chat text).2 = true := hr
    obtain ⟨exl, he, hm⟩ := handle_events_true envs hr'
    obtain ⟨hz1, hz2⟩ := count_typing_zero hm
    have hsrc := handle_src_events_true envs hr'
    simp only [typingStarts, typingCancels] at hz1 hz2 ⊢
    rw [he, hsrc]
    simp [List.count_append, hz1, hz2]

/-! ## C1: what the first settlement contains -/

/-- C1 (amended): starting from a fresh key, the first `Settle` call of
any run uses exactly the fragments submitted before that attempt's
confirmation re-read — its combined text is their concatenation in
arrival order joined by line breaks (`c = intercalate "\n" l`), and the
buffer it settles is exactly the full submission log so far (`b = l`),
with nothing dropped, duplicated, or reordered.  (A fragment submitted
after the confirmation re-read but before the buffer clear is not
covered: it is wiped by the clear — see the counterexample.) -/
theorem c1_first_settle_uses_full_log (chat : ChatId) (t0 : String)
    (envs : List AttemptEnv) (sys' : Sys) (ex : LoopExit)
    (c : String) (b l : List String)
    (rest : List (String × List String × List String))
    (hrun : runLoop chat (submit sys0 chat t0).1 envs = some (sys', ex))
    (hs : settles sys'.events = (c, b, l) :: rest) :
    c = String.intercalate "\n" l ∧ b = l := by
  have hkey : (submit sys0 chat t0).1.mb chat = some ⟨true, [t0], none⟩ := by
    show (add_message emptyMap chat t0).1 chat = _
    rw [add_mb_self]
    simp [emptyMap, initState]
  have hinv : (⟨true, [t0], none⟩ : UserState).buffer = (submit sys0 chat t0).1.log := by
    simp [submit_log, sys0]
  have hset : settles (submit sys0 chat t0).1.events = [] := by
    rw [submit_events]
    rfl
  rcases loop_first_settle hkey hinv hset hrun with hnone |
    ⟨c', b', l', rest', hs', hc, hb⟩
  · rw [hs] at hnone
    exact absurd hnone (by simp)
  · rw [hs] at hs'
    simp only [List.cons.injEq, Prod.mk.injEq] at hs'
    obtain ⟨⟨hc1, hb1, hl1⟩, _⟩ := hs'
    subst hc1
    subst hb1
    subst hl1
    exact ⟨hc, hb⟩

theorem c1_witness :
    runLoop 1 (submit sys0 1 "a").1 [⟨[], [], some "r", false, [], []⟩] =
      some (((runLoop 1 (submit sys0 1 "a").1
          [⟨[], [], some "r", false, [], []⟩]).getD (sys0, LoopExit.outOfFuel)).1,
        ((runLoop 1 (submit sys0 1 "a").1
          [⟨[], [], some "r", false, [], []⟩]).getD (sys0, LoopExit.outOfFuel)).2) ∧
    settles ((runLoop 1 (submit sys0 1 "a").1
        [⟨[], [], some "r", false, [], []⟩]).getD (sys0, LoopExit.outOfFuel)).1.events =
      [("a", ["a"], ["a"])] ∧
    ("a" = String.intercalate "\n" ["a"] ∧ (["a"] : List String) = ["a"]) := by
  refine ⟨rfl, by decide, ?_⟩
  exact c1_first_settle_uses_full_log 1 "a" [⟨[], [], some "r", false, [], []⟩] _ _
    "a" ["a"] ["a"] [] rfl (by decide)

/-- C1 counterexample: submit "a" (a session starts); the generation
completes with no interruption and the confirmation re-read passes;
while the result is being settled (during the persistence/delivery
awaits, before `clear_buffer`) fragment "b" is submitted — it returns
`Buffered`.  The settle uses only "a"; the clear then wipes "b" from the
buffer; the loop finishes with the buffer empty and no further session:
"b" was submitted before the settlement completed, is not part of the
settled text, and is lost, refuting the claim that the settled text is
the concatenation of all fragments submitted before the settlement. -/
theorem c1_counterexample :
    (runLoop 1 (submit sys0 1 "a").1 [⟨[], [], some "r", false, ["b"], []⟩]).map
      (fun p => (settles p.1.events, p.1.log, bufferOf p.1.mb 1, p.2)) =
      some ([("a", ["a"], ["a"])], ["a", "b"], [], LoopExit.finished) ∧
    ¬ ("a" = String.intercalate "\n" ["a", "b"]) :=
  ⟨by decide, by decide⟩

end MB
